import Mathlib

/-!
# DebugView++ : the ingestion core of `MainFrame.cpp`

A shallow embedding of the log ingestion, merge and fan-out code of
`src/DebugView++/MainFrame.cpp`, and of the status-bar formatting helpers of the
same file.

Conventions of the embedding.

* `double` values (message times, durations) are exact rationals `ℚ`.
* `std::vector` is `List`; `std::unique_ptr<T>` that may be null is `Option T`.
* `size_t` is a natural number below `2 ^ w`, with arithmetic modulo `2 ^ w`.
* `CLogView`, `LogFile` and `DBWinReader` are declared in headers that are not
  part of the sources at hand.  A view is represented by the calls the frame
  makes on it, the log file by the sequence of stored messages, a reader by the
  arguments it was created and configured with.
* Window, tab-control and status-bar calls have no effect on the data modelled
  here, except the tab selection, which is kept.
-/

namespace fusion

/-! ## Data model -/

/-- One captured line, as delivered by `DBWinReader::GetLines`. -/
structure Line where
  time : ℚ
  systemTime : Nat
  pid : Nat
  message : String
deriving DecidableEq

/-- A stored message, `Message(time, systemTime, pid, text)`. -/
structure Message where
  time : ℚ
  systemTime : Nat
  pid : Nat
  text : String
deriving DecidableEq

/-- The batch type `Lines` (a `std::vector<Line>`). -/
abbrev Lines := List Line

/-! ## `std::merge` and `CMainFrame::OnTimer` -/

/-- Inner loop of `std::merge` while the head `x` of the first range is fixed:
elements of the second range are emitted as long as `comp y x` holds; `recXs`
continues with the tail of the first range once `x` has been emitted. -/
def stdMergeAux {α : Type} (comp : α → α → Bool) (x : α) (xs : List α)
    (recXs : List α → List α) : List α → List α
  | [] => x :: xs
  | y :: ys => if comp y x then y :: stdMergeAux comp x xs recXs ys else x :: recXs (y :: ys)

/-- The algorithm `std::merge(first1, last1, first2, last2, out, comp)`:
while both ranges are non-empty the head of the second range is taken exactly
when `comp(*first2, *first1)`, otherwise the head of the first range; the rest
of the remaining range is copied. -/
def stdMerge {α : Type} (comp : α → α → Bool) : List α → List α → List α
  | [] => fun ys => ys
  | x :: xs => stdMergeAux comp x xs (stdMerge comp xs)

/-- The comparator of `OnTimer`: `[](const Line& a, const Line& b) { return a.time < b.time; }`. -/
def lineLess (a b : Line) : Bool := decide (a.time < b.time)

/-- The batch `lines` that `OnTimer` builds: a reader that is null contributes
the empty batch, a reader that is present contributes what `GetLines` returns. -/
def OnTimer_lines (localReader globalReader : Option Lines) : Lines :=
  let localLines := match localReader with
    | some ls => ls
    | none => []
  let globalLines := match globalReader with
    | some ls => ls
    | none => []
  stdMerge lineLess localLines globalLines

/-- Source of a merged line: the local or the global reader. -/
inductive Source where
  | localReader
  | globalReader
deriving DecidableEq

/-- The comparator of `OnTimer` on lines that carry a source tag. -/
def taggedLess (a b : Source × Line) : Bool := lineLess a.2 b.2

/-- The merge of `OnTimer` run on tagged lines: which reader every line of the
merged batch came from. -/
def OnTimer_tagged (localLines globalLines : Lines) : List (Source × Line) :=
  stdMerge taggedLess (localLines.map (fun l => (Source.localReader, l)))
    (globalLines.map (fun l => (Source.globalReader, l)))

/-- A batch sorted by non-decreasing time. -/
def TimeSorted (ls : Lines) : Prop := ls.Pairwise (fun a b => a.time ≤ b.time)

/-! ## Collaborators declared outside the sources -/

/-- The calls `CMainFrame` makes on a `CLogView`. -/
inductive ViewCall where
  | BeginUpdate
  | EndUpdate
  | Add (index : Nat) (message : Message)
  | Clear
  | DestroyWindow
deriving DecidableEq

/-- Modelled from the spec: `CLogView` is declared in `LogView.h`, which is not
among the sources.  Following the spec's Filtered View, a view owns a filter
and the displayed set of canonical indices it has accepted; `handle`
identifies the view object and `calls` records, in order, every call the frame
has made on it. -/
structure CLogView where
  handle : Nat
  filter : Message → Bool
  displayed : List Nat
  calls : List ViewCall

/-- Modelled from the spec: the effect of one call on a view.  `Add` evaluates
the filter and records the index when the message passes, `Clear` empties the
displayed set, the other calls leave the displayed set alone.  Every call is
appended to the record `calls`. -/
def CLogView.call (c : ViewCall) (v : CLogView) : CLogView :=
  match c with
  | ViewCall.Add index message =>
      { v with displayed := if v.filter message then v.displayed ++ [index] else v.displayed,
               calls := v.calls ++ [c] }
  | ViewCall.Clear => { v with displayed := [], calls := v.calls ++ [c] }
  | _ => { v with calls := v.calls ++ [c] }

/-- Modelled from the spec: `LogFile` is declared in a header that is not among
the sources.  Following the spec's Canonical Log it is the sequence of stored
messages; index `i` denotes the `i`-th message added since the last clear. -/
abbrev LogFile := List Message

/-- Modelled from the spec: `LogFile::Empty()`. -/
def LogFile.Empty (f : LogFile) : Bool := f.isEmpty

/-- Modelled from the spec: `LogFile::Count()`, the number of stored messages. -/
def LogFile.Count (f : LogFile) : Nat := f.length

/-- Modelled from the spec: `LogFile::Add(message)` stores the message at the
next index. -/
def LogFile.Add (f : LogFile) (m : Message) : LogFile := f ++ [m]

/-- Modelled from the spec: `LogFile::Clear()` discards all entries. -/
def LogFile.Clear (_f : LogFile) : LogFile := []

/-- Modelled from the spec: `Get(index)`, which fails outside `[0, Count())`. -/
def LogFile.Get (f : LogFile) (i : Nat) : Option Message := f[i]?

/-- Modelled from the spec: `DBWinReader` is declared in a header that is not
among the sources.  A reader is created with its capture scope (`global`) and
is configured by `AutoNewLine(value)`. -/
structure DBWinReader where
  global : Bool
  autoNewLine : Bool
deriving DecidableEq

/-- Modelled from the spec: `make_unique<DBWinReader>(global)`.  The reader's
own initial auto-newline setting is not visible in the sources; every creation
path of `CMainFrame` overwrites it through `SetAutoNewLine`. -/
def DBWinReader.create (global : Bool) : DBWinReader := { global := global, autoNewLine := true }

/-- Modelled from the spec: `DBWinReader::AutoNewLine(value)`. -/
def DBWinReader.AutoNewLine (r : DBWinReader) (value : Bool) : DBWinReader :=
  { r with autoNewLine := value }

/-- What the frame does to its collaborators, in program order. -/
inductive Event where
  | logAdd (m : Message)
  | logClear
  | view (handle : Nat) (c : ViewCall)
deriving DecidableEq

/-! ## `CMainFrame` -/

/-- The members of `CMainFrame` that the ingestion core reads or writes.
`tabCurSel` is the selection of the tab control (`GetTabCtrl().GetCurSel()`);
`events` records the calls on the log file and on the views in program order. -/
structure CMainFrame where
  m_timeOffset : ℚ
  m_autoNewLine : Bool
  m_pLocalReader : Option DBWinReader
  m_pGlobalReader : Option DBWinReader
  m_localReaderPaused : Bool
  m_globalReaderPaused : Bool
  m_initialPrivateBytes : Nat
  m_logFile : LogFile
  m_views : List CLogView
  tabCurSel : Int
  events : List Event

/-- `CMainFrame::SetAutoNewLine`. -/
def SetAutoNewLine (s : CMainFrame) (value : Bool) : CMainFrame :=
  { s with
    m_pLocalReader := s.m_pLocalReader.map (fun r => r.AutoNewLine value),
    m_pGlobalReader := s.m_pGlobalReader.map (fun r => r.AutoNewLine value),
    m_autoNewLine := value }

/-- `CMainFrame::GetAutoNewLine`. -/
def GetAutoNewLine (s : CMainFrame) : Bool := s.m_autoNewLine

/-- `CMainFrame::CMainFrame()`.  `globalAvailable` tells whether
`make_unique<DBWinReader>(true)` succeeds; when it throws, the exception is
swallowed and the global reader stays null. -/
def CMainFrame.create (globalAvailable : Bool) (initialPrivateBytes : Nat) : CMainFrame :=
  let s : CMainFrame :=
    { m_timeOffset := 0,
      m_autoNewLine := false,
      m_pLocalReader := some (DBWinReader.create false),
      m_pGlobalReader := none,
      m_localReaderPaused := false,
      m_globalReaderPaused := false,
      m_initialPrivateBytes := initialPrivateBytes,
      m_logFile := [],
      m_views := [],
      tabCurSel := -1,
      events := [] }
  let s := if globalAvailable then { s with m_pGlobalReader := some (DBWinReader.create true) } else s
  SetAutoNewLine s s.m_autoNewLine

/-- `CMainFrame::AddFilterView(name, filter)`: a new view is pushed at the back
of `m_views` and its tab, inserted before the trailing "+" tab, is selected.
`handle` identifies the new view object. -/
def AddFilterView (s : CMainFrame) (handle : Nat) (filter : Message → Bool) : CMainFrame :=
  let newIndex : Int := (s.m_views.length + 1 : Nat) - 1
  { s with
    m_views := s.m_views ++ [{ handle := handle, filter := filter, displayed := [], calls := [] }],
    tabCurSel := newIndex }

/-- The part of `CMainFrame::OnCreate` that touches the view registry:
`AddFilterView(L"Log")` creates the default view with the empty filter. -/
def OnCreate (s : CMainFrame) (handle : Nat) : CMainFrame :=
  AddFilterView s handle (fun _ => true)

/-- `std::string::find(needle)` on character sequences: the first position at
which `needle` occurs, `none` for `npos`. -/
def stdFind (needle : List Char) : List Char → Option Nat
  | [] => if needle.isPrefixOf [] then some 0 else none
  | c :: cs =>
      if needle.isPrefixOf (c :: cs) then some 0
      else (stdFind needle cs).map (fun p => p + 1)

/-- `CMainFrame::IsDbgViewClearMessage`. -/
def IsDbgViewClearMessage (text : String) : Bool :=
  (stdFind "DBGVIEWCLEAR".toList text.toList).isSome

/-- The calls `(*it)->f()` for every view of `m_views`, in registration order. -/
def callViews (c : ViewCall) (s : CMainFrame) : CMainFrame :=
  { s with
    m_views := s.m_views.map (CLogView.call c),
    events := s.events ++ s.m_views.map (fun v => Event.view v.handle c) }

/-- `CMainFrame::OnLogClear`. -/
def OnLogClear (s : CMainFrame) : CMainFrame :=
  let s := callViews ViewCall.Clear s
  { s with m_logFile := s.m_logFile.Clear, events := s.events ++ [Event.logClear] }

/-- `CMainFrame::AddMessage`.  `LogFile::Count` is taken to return the index
as an `int`, so `int index = m_logFile.Count()` converts nothing. -/
def AddMessage (s : CMainFrame) (message : Message) : CMainFrame :=
  if IsDbgViewClearMessage message.text then
    OnLogClear s
  else
    let index := s.m_logFile.Count
    let s := { s with m_logFile := s.m_logFile.Add message, events := s.events ++ [Event.logAdd message] }
    callViews (ViewCall.Add index message) s

/-- The loop `for (it = lines.begin(); ...) AddMessage(Message(it->time - m_timeOffset, ...))`. -/
def addLines (s : CMainFrame) : Lines → CMainFrame
  | [] => s
  | it :: rest =>
      addLines (AddMessage s { time := it.time - s.m_timeOffset, systemTime := it.systemTime,
                               pid := it.pid, text := it.message }) rest

/-- `CMainFrame::ProcessLines`.  The closing `UpdateStatusBar()` only sets
status-bar texts. -/
def ProcessLines (s : CMainFrame) (lines : Lines) : CMainFrame :=
  let s := match lines with
    | [] => s
    | first :: _ => if s.m_logFile.Empty then { s with m_timeOffset := first.time } else s
  let s := callViews ViewCall.BeginUpdate s
  let s := addLines s lines
  callViews ViewCall.EndUpdate s

/-- `CMainFrame::OnTimer`: `localPending` and `globalPending` are what
`GetLines()` of the local and of the global reader would return. -/
def OnTimer (s : CMainFrame) (localPending globalPending : Lines) : CMainFrame :=
  ProcessLines s
    (OnTimer_lines (s.m_pLocalReader.map (fun _ => localPending))
      (s.m_pGlobalReader.map (fun _ => globalPending)))

/-- The conversion `static_cast<int>(n)` of a `size_t`: the low 32 bits, read
as a two's-complement number. -/
def toInt32 (n : Nat) : Int :=
  if n % 2 ^ 32 < 2 ^ 31 then (n % 2 ^ 32 : Nat) else (n % 2 ^ 32 : Nat) - 2 ^ 32

/-- `CMainFrame::OnCloseTab` with `nmhdr.iItem = iItem`. -/
def OnCloseTab (s : CMainFrame) (iItem : Int) : CMainFrame :=
  let filterIndex := iItem
  if filterIndex > 0 ∧ filterIndex < toInt32 s.m_views.length then
    let select := if filterIndex = toInt32 s.m_views.length - 1 then filterIndex - 1 else filterIndex
    { s with
      m_views := s.m_views.eraseIdx filterIndex.toNat,
      tabCurSel := select,
      events := s.events ++
        (match s.m_views[filterIndex.toNat]? with
         | some v => [Event.view v.handle ViewCall.DestroyWindow]
         | none => []) }
  else s

/-- `CMainFrame::OnLogPause`. -/
def OnLogPause (s : CMainFrame) : CMainFrame :=
  let s :=
    if s.m_localReaderPaused then
      { s with m_pLocalReader := some (DBWinReader.create false), m_localReaderPaused := false }
    else if s.m_pLocalReader.isSome then
      { s with m_pLocalReader := none, m_localReaderPaused := true }
    else s
  let s :=
    if s.m_globalReaderPaused then
      { s with m_pGlobalReader := some (DBWinReader.create false), m_globalReaderPaused := false }
    else if s.m_pGlobalReader.isSome then
      { s with m_pGlobalReader := none, m_globalReaderPaused := true }
    else s
  SetAutoNewLine s (GetAutoNewLine s)

/-- The operations that drive the canonical log. -/
inductive Op where
  | addMessage (m : Message)
  | processLines (lines : Lines)
  | onLogClear

/-- One operation applied to the frame. -/
def Op.apply (s : CMainFrame) : Op → CMainFrame
  | Op.addMessage m => AddMessage s m
  | Op.processLines lines => ProcessLines s lines
  | Op.onLogClear => OnLogClear s

/-- A sequence of operations applied in order. -/
def runOps (s : CMainFrame) : List Op → CMainFrame
  | [] => s
  | op :: ops => runOps (op.apply s) ops

/-- A sequence of `ProcessLines` calls, one per batch. -/
def processBatches (s : CMainFrame) : List Lines → CMainFrame
  | [] => s
  | b :: bs => processBatches (ProcessLines s b) bs

/-- The message `ProcessLines` builds from a line under time offset `off`. -/
def Line.toMessage (off : ℚ) (l : Line) : Message :=
  { time := l.time - off, systemTime := l.systemTime, pid := l.pid, text := l.message }

/-- The indices a view has received through `Add`, in order. -/
def addIndices (calls : List ViewCall) : List Nat :=
  calls.filterMap (fun c => match c with
    | ViewCall.Add index _ => some index
    | _ => none)

/-- A batch none of whose lines has a text containing `DBGVIEWCLEAR`. -/
def SentinelFree (lines : Lines) : Prop :=
  ∀ l ∈ lines, ¬ "DBGVIEWCLEAR".toList <:+: l.message.toList

/-- A log none of whose entries passes the test of `IsDbgViewClearMessage`. -/
def LogSentinelFree (f : LogFile) : Prop := ∀ m ∈ f, IsDbgViewClearMessage m.text = false

/-- The calls `Add(c, m0)`, `Add(c + 1, m1)`, ... for a run of messages. -/
def addCalls : Nat → List Message → List ViewCall
  | _, [] => []
  | c, m :: ms => ViewCall.Add c m :: addCalls (c + 1) ms

/-- The events of a run of stored messages starting at index `c`: each message
is added to the log and then passed once to every view, in the order of
`handles`, before the next message is added. -/
def fanoutEvents (handles : List Nat) : Nat → List Message → List Event
  | _, [] => []
  | c, m :: ms =>
      (Event.logAdd m :: handles.map (fun h => Event.view h (ViewCall.Add c m)))
        ++ fanoutEvents handles (c + 1) ms

/-- The order in which `OnTimer` leaves two tagged lines: times do not
decrease, and a global line that precedes a local line is strictly earlier. -/
def MergeOrder (a b : Source × Line) : Prop :=
  a.2.time ≤ b.2.time ∧
    (a.1 = Source.globalReader → b.1 = Source.localReader → a.2.time < b.2.time)

/-! ## Status-bar formatting -/

/-- Modelled from the spec: `floor_to<int>` is declared in `Utilities.h`, which
is not among the sources; it is the floor of its argument as an integer. -/
def floor_to (x : ℚ) : Int := Rat.floor x

/-- Streaming an `int` into a `wstringbuilder`: its decimal representation. -/
def streamInt (n : Int) : String := toString n

/-- `FormatUnits(n, unit)`. -/
def FormatUnits (n : Int) (unit : String) : String :=
  if n = 0 then ""
  else if n = 1 then streamInt n ++ " " ++ unit
  else streamInt n ++ " " ++ unit ++ "s"

/-- The table `units` of `FormatDuration`; `none` is the terminating `nullptr`. -/
def durationUnits : List (Option String) := [some "s", some "ms", some "µs", some "ns", none]

/-- The scaling loop of `FormatDuration`,
`while (*unit != nullptr && seconds > 0 && seconds < 1) { seconds *= 1e3; ++unit; }`,
where the pointer `unit` is the part of the table from its position on.  The
result is the final value of `seconds` and the final position of `unit`. -/
def scaleLoop : List (Option String) → ℚ → ℚ × List (Option String)
  | [], seconds => (seconds, [])
  | none :: rest, seconds => (seconds, none :: rest)
  | some u :: rest, seconds =>
      if seconds > 0 ∧ seconds < 1 then scaleLoop rest (seconds * 1000)
      else (seconds, some u :: rest)

/-- Rounding of a non-negative rational to the nearest integer, ties to even. -/
def roundHalfEven (x : ℚ) : Nat :=
  let f := (Rat.floor x).toNat
  let r := x - f
  if r < 1 / 2 then f
  else if r > 1 / 2 then f + 1
  else if f % 2 = 0 then f else f + 1

/-- Three decimal digits with leading zeros. -/
def pad3 (n : Nat) : String :=
  let d := toString n
  if n < 10 then "00" ++ d else if n < 100 then "0" ++ d else d

/-- The standard stream manipulators `std::fixed << std::setprecision(3)`
applied to a value: sign, integer part, decimal point and three decimals. -/
def streamFixed3 (x : ℚ) : String :=
  let n := roundHalfEven (|x| * 1000)
  (if x < 0 then "-" else "") ++ toString (n / 1000) ++ "." ++ pad3 (n % 1000)

/-- `FormatDuration(seconds)`.  The result is `none` when the final statement
streams `*unit` with `unit` on the terminating `nullptr` of the table, which is
undefined behaviour.  Integer division is the truncating division of C++. -/
def FormatDuration (seconds : ℚ) : Option String :=
  let minutes : Int := floor_to (seconds / 60)
  let seconds := seconds - 60 * minutes
  let hours : Int := Int.tdiv minutes 60
  let minutes := minutes - 60 * hours
  let days : Int := Int.tdiv hours 24
  let hours := hours - 24 * days
  if days > 0 then
    some (FormatUnits days "day" ++ " " ++ FormatUnits hours "hour")
  else if hours > 0 then
    some (FormatUnits hours "hour" ++ " " ++ FormatUnits minutes "minute")
  else if minutes > 0 then
    some (FormatUnits minutes "minute" ++ " " ++ FormatUnits (floor_to seconds) "second")
  else
    match scaleLoop durationUnits seconds with
    | (seconds, some u :: _) => some (streamFixed3 seconds ++ " " ++ u)
    | _ => none

/-- The position of the pointer `unit` in the table when the scaling loop of
`FormatDuration` is left, for a duration that reaches the loop. -/
def FormatDuration_unitIndex (seconds : ℚ) : Nat :=
  durationUnits.length - (scaleLoop durationUnits seconds).2.length

/-- The table `units` of `FormatBytes`; `none` is the terminating `nullptr`. -/
def byteUnits : List (Option String) :=
  [some "bytes", some "kB", some "MB", some "GB", some "TB", some "PB", some "EB", none]

/-- The loop of `FormatBytes`,
`while (size / kb > 0 && unit[1] != nullptr) { size = size / kb; ++unit; }`. -/
def bytesLoop : List (Option String) → Nat → Nat × List (Option String)
  | u :: some v :: rest, size =>
      if size / 1024 > 0 then bytesLoop (some v :: rest) (size / 1024)
      else (size, u :: some v :: rest)
  | units, size => (size, units)

/-- `FormatBytes(size)`. -/
def FormatBytes (size : Nat) : Option String :=
  match bytesLoop byteUnits size with
  | (size, some u :: _) => some (toString size ++ " " ++ u)
  | _ => none

/-- The value `memoryUsage` that `UpdateStatusBar` passes to `FormatBytes`, for
a `size_t` of `w` bits: the difference is taken modulo `2 ^ w`, and the test
`memoryUsage < 0` is made on the unsigned value. -/
def UpdateStatusBar_memoryUsage (w : Nat) (privateBytes initialPrivateBytes : Nat) : Nat :=
  let memoryUsage := (privateBytes + 2 ^ w - initialPrivateBytes % 2 ^ w) % 2 ^ w
  if memoryUsage < 0 then 0 else memoryUsage

/-- The unit name after a number in the spec's rendering: plural `s` unless
the number is 1. -/
def specUnitName (unit : String) (n : Int) : String :=
  if n = 1 then unit else unit ++ "s"

/-- The spec's minute-and-second rendering `<m> minute(s) <s> second(s)`: each
number followed by its unit name. -/
def specMinuteSecond (m s : Int) : String :=
  toString m ++ " " ++ specUnitName "minute" m ++ " " ++ toString s ++ " " ++ specUnitName "second" s

/-- The minute part of the rendering followed by one blank, with no seconds part. -/
def specMinuteOnly (m : Int) : String :=
  toString m ++ " " ++ specUnitName "minute" m ++ " "

/-! ## Lemmas on `std::merge` -/

theorem stdMerge_nil_left {α : Type} (comp : α → α → Bool) (ys : List α) :
    stdMerge comp [] ys = ys := rfl

theorem stdMerge_nil_right {α : Type} (comp : α → α → Bool) (xs : List α) :
    stdMerge comp xs [] = xs := by
  cases xs <;> rfl

theorem stdMerge_cons_cons {α : Type} (comp : α → α → Bool) (x y : α) (xs ys : List α) :
    stdMerge comp (x :: xs) (y :: ys) =
      if comp y x then y :: stdMerge comp (x :: xs) ys else x :: stdMerge comp xs (y :: ys) := rfl

theorem stdMerge_perm {α : Type} (comp : α → α → Bool) (xs ys : List α) :
    (stdMerge comp xs ys).Perm (xs ++ ys) := by
  induction xs generalizing ys with
  | nil => simp [stdMerge_nil_left]
  | cons x xs ihx =>
    induction ys with
    | nil => simp [stdMerge_nil_right]
    | cons y ys ihy =>
      rw [stdMerge_cons_cons]
      split
      · exact (List.Perm.cons y ihy).trans (List.perm_middle.symm)
      · exact List.Perm.cons x (ihx (y :: ys))

theorem mem_stdMerge {α : Type} (comp : α → α → Bool) (xs ys : List α) (z : α) :
    z ∈ stdMerge comp xs ys ↔ z ∈ xs ∨ z ∈ ys := by
  rw [(stdMerge_perm comp xs ys).mem_iff, List.mem_append]

theorem stdMerge_map {α β : Type} (f : β → α) (comp : α → α → Bool) (comp2 : β → β → Bool)
    (hc : ∀ a b, comp2 a b = comp (f a) (f b)) (xs ys : List β) :
    (stdMerge comp2 xs ys).map f = stdMerge comp (xs.map f) (ys.map f) := by
  induction xs generalizing ys with
  | nil => simp [stdMerge_nil_left]
  | cons x xs ihx =>
    induction ys with
    | nil => simp [stdMerge_nil_right]
    | cons y ys ihy =>
      rw [List.map_cons, List.map_cons, stdMerge_cons_cons, stdMerge_cons_cons, hc]
      split
      · rw [List.map_cons, ihy, List.map_cons]
      · rw [List.map_cons, ihx, List.map_cons]

theorem stdMerge_filter_left {α : Type} (comp : α → α → Bool) (p : α → Bool) (xs ys : List α)
    (hx : ∀ x ∈ xs, p x = true) (hy : ∀ y ∈ ys, p y = false) :
    (stdMerge comp xs ys).filter p = xs := by
  induction xs generalizing ys with
  | nil =>
    rw [stdMerge_nil_left]
    exact List.filter_eq_nil_iff.mpr (fun y hyy => by simp [hy y hyy])
  | cons x xs ihx =>
    induction ys with
    | nil =>
      rw [stdMerge_nil_right]
      exact List.filter_eq_self.mpr hx
    | cons y ys ihy =>
      have hpx : p x = true := hx x (List.mem_cons_self _ _)
      have hpy : p y = false := hy y (List.mem_cons_self _ _)
      rw [stdMerge_cons_cons]
      split
      · rw [List.filter_cons, hpy]
        simpa using ihy (fun z hz => hy z (List.mem_cons_of_mem _ hz))
      · rw [List.filter_cons, hpx]
        simp only [if_true]
        rw [ihx (y :: ys) (fun z hz => hx z (List.mem_cons_of_mem _ hz)) hy]

theorem stdMerge_filter_right {α : Type} (comp : α → α → Bool) (p : α → Bool) (xs ys : List α)
    (hx : ∀ x ∈ xs, p x = false) (hy : ∀ y ∈ ys, p y = true) :
    (stdMerge comp xs ys).filter p = ys := by
  induction xs generalizing ys with
  | nil =>
    rw [stdMerge_nil_left]
    exact List.filter_eq_self.mpr hy
  | cons x xs ihx =>
    induction ys with
    | nil =>
      rw [stdMerge_nil_right]
      exact List.filter_eq_nil_iff.mpr (fun z hz => by simp [hx z hz])
    | cons y ys ihy =>
      have hpx : p x = false := hx x (List.mem_cons_self _ _)
      have hpy : p y = true := hy y (List.mem_cons_self _ _)
      rw [stdMerge_cons_cons]
      split
      · rw [List.filter_cons, hpy]
        simp only [if_true]
        rw [ihy (fun z hz => hy z (List.mem_cons_of_mem _ hz))]
      · rw [List.filter_cons, hpx]
        simpa using ihx (y :: ys) (fun z hz => hx z (List.mem_cons_of_mem _ hz)) hy

theorem OnTimer_tagged_order (localLines globalLines : Lines)
    (hl : TimeSorted localLines) (hg : TimeSorted globalLines) :
    (OnTimer_tagged localLines globalLines).Pairwise MergeOrder := by
  unfold OnTimer_tagged
  induction localLines generalizing globalLines with
  | nil =>
    rw [List.map_nil, stdMerge_nil_left, List.pairwise_map]
    exact hg.imp (fun h => ⟨h, fun _ hb => by cases hb⟩)
  | cons x xs ihx =>
    induction globalLines with
    | nil =>
      rw [List.map_nil, stdMerge_nil_right, List.pairwise_map]
      exact hl.imp (fun h => ⟨h, fun ha => by cases ha⟩)
    | cons y ys ihy =>
      have hxs := List.pairwise_cons.mp hl
      have hys := List.pairwise_cons.mp hg
      rw [List.map_cons, List.map_cons, stdMerge_cons_cons]
      split
      · rename_i hc
        have hyx : y.time < x.time := by simpa [taggedLess, lineLess] using hc
        refine List.pairwise_cons.mpr ⟨?_, ?_⟩
        · intro z hz
          rw [← List.map_cons, mem_stdMerge] at hz
          rcases hz with hz | hz
          · obtain ⟨l, hlm, rfl⟩ := List.mem_map.mp hz
            have hxl : x.time ≤ l.time := by
              rcases List.mem_cons.mp hlm with rfl | hlm
              · exact le_refl _
              · exact hxs.1 l hlm
            exact ⟨le_of_lt (lt_of_lt_of_le hyx hxl), fun _ _ => lt_of_lt_of_le hyx hxl⟩
          · obtain ⟨l, hlm, rfl⟩ := List.mem_map.mp hz
            exact ⟨hys.1 l hlm, fun _ hb => by cases hb⟩
        · rw [← List.map_cons]
          exact ihy hys.2
      · rename_i hc
        have hxy : x.time ≤ y.time := by
          have : ¬ y.time < x.time := by simpa [taggedLess, lineLess] using hc
          exact not_lt.mp this
        refine List.pairwise_cons.mpr ⟨?_, ?_⟩
        · intro z hz
          rw [← List.map_cons, mem_stdMerge] at hz
          rcases hz with hz | hz
          · obtain ⟨l, hlm, rfl⟩ := List.mem_map.mp hz
            exact ⟨hxs.1 l hlm, fun ha => by cases ha⟩
          · obtain ⟨l, hlm, rfl⟩ := List.mem_map.mp hz
            have hyl : y.time ≤ l.time := by
              rcases List.mem_cons.mp hlm with rfl | hlm
              · exact le_refl _
              · exact hys.1 l hlm
            exact ⟨le_trans hxy hyl, fun ha => by cases ha⟩
        · rw [← List.map_cons]
          exact ihx (y :: ys) hxs.2 hg

/-- C1: for two batches each sorted by non-decreasing time, the batch `OnTimer`
builds with `std::merge` is sorted by non-decreasing time, is a permutation of
`localLines ++ globalLines`, keeps the lines of each reader in their order
(the lines tagged local are exactly `localLines`, those tagged global exactly
`globalLines`), and never places a global line before a local line of equal
time.  Merging with an absent reader or an empty batch returns the other batch
unchanged, and lines at times 0, 2 (local) and 1 (global) come out in the
order of their times. -/
theorem OnTimer_merge_sorted_stable (localLines globalLines : Lines)
    (hl : TimeSorted localLines) (hg : TimeSorted globalLines) :
    (OnTimer_tagged localLines globalLines).map Prod.snd
        = OnTimer_lines (some localLines) (some globalLines) ∧
      TimeSorted (OnTimer_lines (some localLines) (some globalLines)) ∧
      (OnTimer_lines (some localLines) (some globalLines)).Perm (localLines ++ globalLines) ∧
      ((OnTimer_tagged localLines globalLines).filter
          (fun t => decide (t.1 = Source.localReader))).map Prod.snd = localLines ∧
      ((OnTimer_tagged localLines globalLines).filter
          (fun t => decide (t.1 = Source.globalReader))).map Prod.snd = globalLines ∧
      (OnTimer_tagged localLines globalLines).Pairwise MergeOrder ∧
      OnTimer_lines none (some globalLines) = globalLines ∧
      OnTimer_lines (some localLines) none = localLines ∧
      OnTimer_lines (some []) (some globalLines) = globalLines ∧
      OnTimer_lines (some localLines) (some []) = localLines ∧
      (∀ a b c : Line, a.time = 0 → b.time = 1 → c.time = 2 →
        OnTimer_lines (some [a, c]) (some [b]) = [a, b, c]) := by
  have hmap : (OnTimer_tagged localLines globalLines).map Prod.snd
      = OnTimer_lines (some localLines) (some globalLines) := by
    unfold OnTimer_tagged OnTimer_lines
    rw [stdMerge_map Prod.snd lineLess taggedLess (fun _ _ => rfl)]
    simp [List.map_map, Function.comp_def]
  have hord := OnTimer_tagged_order localLines globalLines hl hg
  refine ⟨hmap, ?_, ?_, ?_, ?_, hord, ?_, ?_, ?_, ?_, ?_⟩
  · rw [← hmap]
    unfold TimeSorted
    rw [List.pairwise_map]
    exact hord.imp (fun h => h.1)
  · unfold OnTimer_lines
    exact stdMerge_perm _ _ _
  · unfold OnTimer_tagged
    rw [stdMerge_filter_left]
    · simp [List.map_map, Function.comp_def]
    · intro x hx
      obtain ⟨l, _, rfl⟩ := List.mem_map.mp hx
      simp
    · intro y hy
      obtain ⟨l, _, rfl⟩ := List.mem_map.mp hy
      simp
  · unfold OnTimer_tagged
    rw [stdMerge_filter_right]
    · simp [List.map_map, Function.comp_def]
    · intro x hx
      obtain ⟨l, _, rfl⟩ := List.mem_map.mp hx
      simp
    · intro y hy
      obtain ⟨l, _, rfl⟩ := List.mem_map.mp hy
      simp
  · simp [OnTimer_lines, stdMerge_nil_left]
  · simp [OnTimer_lines, stdMerge_nil_right]
  · simp [OnTimer_lines, stdMerge_nil_left]
  · simp [OnTimer_lines, stdMerge_nil_right]
  · intro a b c ha hb hc
    simp [OnTimer_lines, stdMerge_cons_cons, stdMerge_nil_left, stdMerge_nil_right, lineLess,
      ha, hb, hc]

/-- Witness of C1 on the batches `[(0, a), (2, c)]` and `[(1, b)]`. -/
theorem OnTimer_merge_sorted_stable_witness :
    TimeSorted [⟨0, 0, 0, "a"⟩, ⟨2, 0, 0, "c"⟩] ∧ TimeSorted [⟨1, 0, 0, "b"⟩] ∧
      TimeSorted (OnTimer_lines (some [⟨0, 0, 0, "a"⟩, ⟨2, 0, 0, "c"⟩]) (some [⟨1, 0, 0, "b"⟩])) ∧
      OnTimer_lines (some [⟨0, 0, 0, "a"⟩, ⟨2, 0, 0, "c"⟩]) (some [⟨1, 0, 0, "b"⟩])
        = [⟨0, 0, 0, "a"⟩, ⟨1, 0, 0, "b"⟩, ⟨2, 0, 0, "c"⟩] :=
  have h1 : TimeSorted [⟨0, 0, 0, "a"⟩, ⟨2, 0, 0, "c"⟩] := by simp [TimeSorted]
  have h2 : TimeSorted [⟨1, 0, 0, "b"⟩] := by simp [TimeSorted]
  ⟨h1, h2, (OnTimer_merge_sorted_stable _ _ h1 h2).2.1,
    (OnTimer_merge_sorted_stable _ _ h1 h2).2.2.2.2.2.2.2.2.2.2 _ _ _ rfl rfl rfl⟩
/-! ## Lemmas on the clear sentinel -/

theorem stdFind_cons (needle : List Char) (c : Char) (cs : List Char) :
    stdFind needle (c :: cs) =
      if needle.isPrefixOf (c :: cs) then some 0
      else (stdFind needle cs).map (fun p => p + 1) := rfl

theorem stdFind_isSome (needle text : List Char) :
    (stdFind needle text).isSome = true ↔ needle <:+: text := by
  induction text with
  | nil => simp [stdFind]
  | cons c cs ih =>
    rw [List.infix_cons_iff, ← ih, stdFind_cons]
    by_cases hp : needle.isPrefixOf (c :: cs) = true
    · rw [if_pos hp]
      simp only [Option.isSome_some, true_iff]
      exact Or.inl (List.isPrefixOf_iff_prefix.mp hp)
    · have hnp : ¬ needle <+: c :: cs := fun h => hp (List.isPrefixOf_iff_prefix.mpr h)
      rw [if_neg hp, Option.isSome_map']
      exact ⟨Or.inr, fun h => h.resolve_left hnp⟩

/-- The test of `IsDbgViewClearMessage` holds exactly for the texts that contain
the substring `DBGVIEWCLEAR`. -/
theorem IsDbgViewClearMessage_iff (text : String) :
    IsDbgViewClearMessage text = true ↔ "DBGVIEWCLEAR".toList <:+: text.toList :=
  stdFind_isSome _ _

theorem IsDbgViewClearMessage_false_iff (text : String) :
    IsDbgViewClearMessage text = false ↔ ¬ "DBGVIEWCLEAR".toList <:+: text.toList := by
  rw [← IsDbgViewClearMessage_iff]
  cases IsDbgViewClearMessage text <;> simp

/-! ## Lemmas on the fan-out -/

@[simp] theorem CLogView.call_calls (c : ViewCall) (v : CLogView) :
    (CLogView.call c v).calls = v.calls ++ [c] := by
  cases c <;> rfl

@[simp] theorem CLogView.call_handle (c : ViewCall) (v : CLogView) :
    (CLogView.call c v).handle = v.handle := by
  cases c <;> rfl

@[simp] theorem CLogView.call_filter (c : ViewCall) (v : CLogView) :
    (CLogView.call c v).filter = v.filter := by
  cases c <;> rfl

@[simp] theorem callViews_logFile (c : ViewCall) (s : CMainFrame) :
    (callViews c s).m_logFile = s.m_logFile := rfl

@[simp] theorem callViews_timeOffset (c : ViewCall) (s : CMainFrame) :
    (callViews c s).m_timeOffset = s.m_timeOffset := rfl

@[simp] theorem callViews_views (c : ViewCall) (s : CMainFrame) :
    (callViews c s).m_views = s.m_views.map (CLogView.call c) := rfl

@[simp] theorem callViews_events (c : ViewCall) (s : CMainFrame) :
    (callViews c s).events = s.events ++ s.m_views.map (fun v => Event.view v.handle c) := rfl

theorem map_handle_call (c : ViewCall) (vs : List CLogView) :
    (vs.map (CLogView.call c)).map CLogView.handle = vs.map CLogView.handle := by
  simp [List.map_map, Function.comp_def]

theorem map_calls_call (c : ViewCall) (vs : List CLogView) :
    (vs.map (CLogView.call c)).map CLogView.calls = vs.map (fun v => v.calls ++ [c]) := by
  simp [List.map_map, Function.comp_def]

@[simp] theorem OnLogClear_logFile (s : CMainFrame) : (OnLogClear s).m_logFile = [] := rfl

@[simp] theorem OnLogClear_timeOffset (s : CMainFrame) :
    (OnLogClear s).m_timeOffset = s.m_timeOffset := rfl

@[simp] theorem OnLogClear_views (s : CMainFrame) :
    (OnLogClear s).m_views = s.m_views.map (CLogView.call ViewCall.Clear) := rfl

@[simp] theorem OnLogClear_events (s : CMainFrame) :
    (OnLogClear s).events
      = s.events ++ s.m_views.map (fun v => Event.view v.handle ViewCall.Clear) ++ [Event.logClear] :=
  rfl

theorem AddMessage_of_sentinel (s : CMainFrame) (message : Message)
    (h : IsDbgViewClearMessage message.text = true) : AddMessage s message = OnLogClear s := by
  unfold AddMessage
  rw [if_pos h]

theorem AddMessage_logFile (s : CMainFrame) (message : Message)
    (h : IsDbgViewClearMessage message.text = false) :
    (AddMessage s message).m_logFile = s.m_logFile ++ [message] := by
  unfold AddMessage
  simp [h, LogFile.Add]

theorem AddMessage_views (s : CMainFrame) (message : Message)
    (h : IsDbgViewClearMessage message.text = false) :
    (AddMessage s message).m_views
      = s.m_views.map (CLogView.call (ViewCall.Add s.m_logFile.Count message)) := by
  unfold AddMessage
  simp [h]

theorem AddMessage_events (s : CMainFrame) (message : Message)
    (h : IsDbgViewClearMessage message.text = false) :
    (AddMessage s message).events
      = s.events ++ Event.logAdd message ::
          s.m_views.map (fun v => Event.view v.handle (ViewCall.Add s.m_logFile.Count message)) := by
  unfold AddMessage
  simp [h]

@[simp] theorem AddMessage_timeOffset (s : CMainFrame) (message : Message) :
    (AddMessage s message).m_timeOffset = s.m_timeOffset := by
  unfold AddMessage
  split <;> rfl

theorem AddMessage_handles (s : CMainFrame) (message : Message) :
    (AddMessage s message).m_views.map CLogView.handle = s.m_views.map CLogView.handle := by
  unfold AddMessage
  split <;> simp [List.map_map, Function.comp_def]

theorem AddMessage_sentinelFree (s : CMainFrame) (message : Message)
    (hs : LogSentinelFree s.m_logFile) : LogSentinelFree (AddMessage s message).m_logFile := by
  cases h : IsDbgViewClearMessage message.text with
  | true =>
    rw [AddMessage_of_sentinel s message h]
    intro m hm
    simp at hm
  | false =>
    rw [AddMessage_logFile s message h]
    intro m hm
    rcases List.mem_append.mp hm with hm | hm
    · exact hs m hm
    · rw [List.mem_singleton.mp hm]
      exact h

theorem addLines_sentinelFree (s : CMainFrame) (lines : Lines)
    (hs : LogSentinelFree s.m_logFile) : LogSentinelFree (addLines s lines).m_logFile := by
  induction lines generalizing s with
  | nil => exact hs
  | cons l rest ih => exact ih _ (AddMessage_sentinelFree s _ hs)

theorem ProcessLines_sentinelFree (s : CMainFrame) (lines : Lines)
    (hs : LogSentinelFree s.m_logFile) : LogSentinelFree (ProcessLines s lines).m_logFile := by
  unfold ProcessLines
  simp only [callViews_logFile]
  apply addLines_sentinelFree
  simp only [callViews_logFile]
  cases lines with
  | nil => exact hs
  | cons first rest =>
    simp only
    split
    · exact hs
    · exact hs

theorem OnLogClear_sentinelFree (s : CMainFrame) : LogSentinelFree (OnLogClear s).m_logFile := by
  intro m hm
  simp at hm

theorem runOps_sentinelFree (s : CMainFrame) (ops : List Op)
    (hs : LogSentinelFree s.m_logFile) : LogSentinelFree (runOps s ops).m_logFile := by
  induction ops generalizing s with
  | nil => exact hs
  | cons op ops ih =>
    apply ih
    cases op with
    | addMessage m => exact AddMessage_sentinelFree s m hs
    | processLines lines => exact ProcessLines_sentinelFree s lines hs
    | onLogClear => exact OnLogClear_sentinelFree s

/-- C2: a message whose text contains `DBGVIEWCLEAR` is not stored by
`AddMessage`: the log is left empty, every registered view receives exactly one
call, `Clear`, and no `Add`; and from a log without sentinel entries no
sequence of `AddMessage`, `ProcessLines` and `OnLogClear` calls reaches a state
in which some `Get(i)` has a text containing `DBGVIEWCLEAR`. -/
theorem AddMessage_sentinel_never_stored (s : CMainFrame) (message : Message) (ops : List Op)
    (hm : "DBGVIEWCLEAR".toList <:+: message.text.toList)
    (hs : ∀ m ∈ s.m_logFile, ¬ "DBGVIEWCLEAR".toList <:+: m.text.toList) :
    (AddMessage s message).m_logFile = [] ∧
      (AddMessage s message).m_logFile.Count = 0 ∧
      (AddMessage s message).m_views.map CLogView.calls
        = s.m_views.map (fun v => v.calls ++ [ViewCall.Clear]) ∧
      (AddMessage s message).m_views.map CLogView.handle = s.m_views.map CLogView.handle ∧
      (AddMessage s message).events
        = s.events ++ s.m_views.map (fun v => Event.view v.handle ViewCall.Clear)
            ++ [Event.logClear] ∧
      (∀ i m, (runOps s ops).m_logFile.Get i = some m →
        ¬ "DBGVIEWCLEAR".toList <:+: m.text.toList) ∧
      (∀ i m, (runOps (AddMessage s message) ops).m_logFile.Get i = some m →
        ¬ "DBGVIEWCLEAR".toList <:+: m.text.toList) := by
  have h := (IsDbgViewClearMessage_iff message.text).mpr hm
  have hs2 : LogSentinelFree s.m_logFile :=
    fun m hmem => (IsDbgViewClearMessage_false_iff m.text).mpr (hs m hmem)
  rw [AddMessage_of_sentinel s message h]
  refine ⟨rfl, rfl, ?_, ?_, rfl, ?_, ?_⟩
  · simp [List.map_map, Function.comp_def]
  · simp [List.map_map, Function.comp_def]
  · intro i m hget
    have hmem : m ∈ (runOps s ops).m_logFile := List.getElem?_mem hget
    exact (IsDbgViewClearMessage_false_iff m.text).mp (runOps_sentinelFree s ops hs2 m hmem)
  · intro i m hget
    have hmem : m ∈ (runOps (OnLogClear s) ops).m_logFile := List.getElem?_mem hget
    exact (IsDbgViewClearMessage_false_iff m.text).mp
      (runOps_sentinelFree _ ops (OnLogClear_sentinelFree s) m hmem)

/-- Witness of C2: a fresh session with one view and the message
`xDBGVIEWCLEARy`. -/
theorem AddMessage_sentinel_never_stored_witness :
    "DBGVIEWCLEAR".toList <:+: "xDBGVIEWCLEARy".toList ∧
      (AddMessage (OnCreate (CMainFrame.create true 0) 1) ⟨3, 0, 0, "xDBGVIEWCLEARy"⟩).m_logFile
        = [] ∧
      (AddMessage (OnCreate (CMainFrame.create true 0) 1)
        ⟨3, 0, 0, "xDBGVIEWCLEARy"⟩).m_views.map CLogView.calls = [[ViewCall.Clear]] :=
  have hm : "DBGVIEWCLEAR".toList <:+: "xDBGVIEWCLEARy".toList := by decide
  have h := AddMessage_sentinel_never_stored (OnCreate (CMainFrame.create true 0) 1)
    ⟨3, 0, 0, "xDBGVIEWCLEARy"⟩ [Op.processLines [⟨1, 0, 0, "a"⟩], Op.onLogClear] hm
    (by
      intro m hmem
      cases hmem)
  ⟨hm, h.1, h.2.2.1⟩

/-! ## Lemmas on `ProcessLines` -/

theorem SentinelFree.head {l : Line} {rest : Lines} (h : SentinelFree (l :: rest)) :
    IsDbgViewClearMessage l.message = false :=
  (IsDbgViewClearMessage_false_iff _).mpr (h l (List.mem_cons_self _ _))

theorem SentinelFree.tail {l : Line} {rest : Lines} (h : SentinelFree (l :: rest)) :
    SentinelFree rest :=
  fun x hx => h x (List.mem_cons_of_mem _ hx)

@[simp] theorem addLines_timeOffset (s : CMainFrame) (lines : Lines) :
    (addLines s lines).m_timeOffset = s.m_timeOffset := by
  induction lines generalizing s with
  | nil => rfl
  | cons l rest ih => rw [addLines, ih, AddMessage_timeOffset]

theorem addLines_handles (s : CMainFrame) (lines : Lines) :
    (addLines s lines).m_views.map CLogView.handle = s.m_views.map CLogView.handle := by
  induction lines generalizing s with
  | nil => rfl
  | cons l rest ih => rw [addLines, ih, AddMessage_handles]

theorem addLines_logFile (s : CMainFrame) (lines : Lines) (h : SentinelFree lines) :
    (addLines s lines).m_logFile = s.m_logFile ++ lines.map (Line.toMessage s.m_timeOffset) := by
  induction lines generalizing s with
  | nil => simp [addLines]
  | cons l rest ih =>
    rw [addLines, ih _ h.tail, AddMessage_timeOffset, AddMessage_logFile _ _ h.head]
    simp [Line.toMessage]

theorem addLines_calls (s : CMainFrame) (lines : Lines) (h : SentinelFree lines) :
    (addLines s lines).m_views.map CLogView.calls
      = s.m_views.map (fun v => v.calls
          ++ addCalls s.m_logFile.Count (lines.map (Line.toMessage s.m_timeOffset))) := by
  induction lines generalizing s with
  | nil => simp [addLines, addCalls]
  | cons l rest ih =>
    rw [addLines, ih _ h.tail, AddMessage_timeOffset, AddMessage_logFile _ _ h.head,
      AddMessage_views _ _ h.head]
    simp [List.map_map, Function.comp_def, addCalls, LogFile.Count, Line.toMessage]

theorem addLines_events (s : CMainFrame) (lines : Lines) (h : SentinelFree lines) :
    (addLines s lines).events
      = s.events ++ fanoutEvents (s.m_views.map CLogView.handle) s.m_logFile.Count
          (lines.map (Line.toMessage s.m_timeOffset)) := by
  induction lines generalizing s with
  | nil => simp [addLines, fanoutEvents]
  | cons l rest ih =>
    rw [addLines, ih _ h.tail, AddMessage_timeOffset, AddMessage_logFile _ _ h.head,
      AddMessage_events _ _ h.head, AddMessage_handles]
    simp [List.map_map, Function.comp_def, fanoutEvents, LogFile.Count, Line.toMessage]

theorem addIndices_append (xs ys : List ViewCall) :
    addIndices (xs ++ ys) = addIndices xs ++ addIndices ys := by
  simp [addIndices, List.filterMap_append]

theorem addIndices_addCalls (c : Nat) (ms : List Message) :
    addIndices (addCalls c ms) = List.range' c ms.length := by
  induction ms generalizing c with
  | nil => rfl
  | cons m ms ih =>
    have := ih (c + 1)
    simp only [addIndices] at this
    simp [addCalls, addIndices, List.range'_succ, this]

/-- The time offset `ProcessLines` works with: the time of the first line when
the log is empty and the batch is not, the previous offset otherwise. -/
theorem ProcessLines_timeOffset (s : CMainFrame) (lines : Lines) :
    (ProcessLines s lines).m_timeOffset =
      match lines with
      | [] => s.m_timeOffset
      | first :: _ => if s.m_logFile.Empty then first.time else s.m_timeOffset := by
  unfold ProcessLines
  simp only [callViews_timeOffset, addLines_timeOffset]
  cases lines with
  | nil => rfl
  | cons first rest =>
    simp only
    split <;> rfl

theorem ProcessLines_logFile (s : CMainFrame) (lines : Lines) (h : SentinelFree lines) :
    (ProcessLines s lines).m_logFile
      = s.m_logFile ++ lines.map (Line.toMessage (ProcessLines s lines).m_timeOffset) := by
  rw [ProcessLines_timeOffset]
  unfold ProcessLines
  simp only [callViews_logFile]
  rw [addLines_logFile _ _ h]
  cases lines with
  | nil => rfl
  | cons first rest =>
    simp only [callViews_logFile, callViews_timeOffset]
    split <;> rfl

theorem ProcessLines_handles (s : CMainFrame) (lines : Lines) :
    (ProcessLines s lines).m_views.map CLogView.handle = s.m_views.map CLogView.handle := by
  unfold ProcessLines
  simp only [callViews_views, map_handle_call, addLines_handles]
  cases lines with
  | nil => rfl
  | cons first rest =>
    simp only
    split <;> rfl

theorem ProcessLines_calls (s : CMainFrame) (lines : Lines) (h : SentinelFree lines) :
    (ProcessLines s lines).m_views.map CLogView.calls
      = s.m_views.map (fun v => v.calls ++ [ViewCall.BeginUpdate]
          ++ addCalls s.m_logFile.Count
              (lines.map (Line.toMessage (ProcessLines s lines).m_timeOffset))
          ++ [ViewCall.EndUpdate]) := by
  rw [ProcessLines_timeOffset]
  unfold ProcessLines
  simp only [callViews_views, map_calls_call]
  have e : ∀ vs : List CLogView, vs.map (fun v => v.calls ++ [ViewCall.EndUpdate])
      = (vs.map CLogView.calls).map (fun c => c ++ [ViewCall.EndUpdate]) := by
    intro vs
    simp [List.map_map, Function.comp_def]
  rw [e, addLines_calls _ _ h]
  cases lines with
  | nil => simp [List.map_map, Function.comp_def, addCalls]
  | cons first rest =>
    simp only [callViews_logFile, callViews_timeOffset, callViews_views]
    split <;> simp [List.map_map, Function.comp_def]

theorem ProcessLines_events (s : CMainFrame) (lines : Lines) (h : SentinelFree lines) :
    (ProcessLines s lines).events
      = s.events ++ s.m_views.map (fun v => Event.view v.handle ViewCall.BeginUpdate)
          ++ fanoutEvents (s.m_views.map CLogView.handle) s.m_logFile.Count
              (lines.map (Line.toMessage (ProcessLines s lines).m_timeOffset))
          ++ s.m_views.map (fun v => Event.view v.handle ViewCall.EndUpdate) := by
  rw [ProcessLines_timeOffset]
  unfold ProcessLines
  simp only [callViews_events]
  rw [addLines_events _ _ h]
  have hh := addLines_handles
  cases lines with
  | nil => simp [fanoutEvents, addLines, List.map_map, Function.comp_def]
  | cons first rest =>
    have e : ∀ (vs : List CLogView) (c : ViewCall),
        vs.map (fun v => Event.view v.handle c)
          = (vs.map CLogView.handle).map (fun h => Event.view h c) := by
      intro vs c
      simp [List.map_map, Function.comp_def]
    rw [e (addLines _ _).m_views, addLines_handles]
    simp only [callViews_logFile, callViews_timeOffset, callViews_views, callViews_events,
      map_handle_call]
    split <;> simp [List.map_map, Function.comp_def]

/-! ## Lemmas on runs of `ProcessLines` -/

theorem addLines_append (s : CMainFrame) (xs ys : Lines) :
    addLines s (xs ++ ys) = addLines (addLines s xs) ys := by
  induction xs generalizing s with
  | nil => rfl
  | cons x xs ih => exact ih _

theorem processBatches_handles (s : CMainFrame) (batches : List Lines) :
    (processBatches s batches).m_views.map CLogView.handle = s.m_views.map CLogView.handle := by
  induction batches generalizing s with
  | nil => rfl
  | cons b bs ih => rw [processBatches, ih, ProcessLines_handles]

theorem processBatches_count (s : CMainFrame) (batches : List Lines)
    (hb : ∀ b ∈ batches, SentinelFree b) :
    (processBatches s batches).m_logFile.Count = s.m_logFile.Count + batches.flatten.length := by
  induction batches generalizing s with
  | nil => rfl
  | cons b bs ih =>
    rw [processBatches, ih _ (fun x hx => hb x (List.mem_cons_of_mem _ hx)),
      ProcessLines_logFile _ _ (hb b (List.mem_cons_self _ _))]
    simp [LogFile.Count, Nat.add_assoc]

theorem processBatches_addIndices (s : CMainFrame) (batches : List Lines)
    (hb : ∀ b ∈ batches, SentinelFree b) :
    (processBatches s batches).m_views.map (fun v => addIndices v.calls)
      = s.m_views.map (fun v => addIndices v.calls
          ++ List.range' s.m_logFile.Count batches.flatten.length) := by
  induction batches generalizing s with
  | nil => simp [processBatches]
  | cons b bs ih =>
    have hb1 := hb b (List.mem_cons_self _ _)
    have e : ∀ (vs : List CLogView) (f : List ViewCall → List Nat),
        vs.map (fun v => f v.calls) = (vs.map CLogView.calls).map f := by
      intro vs f
      simp [List.map_map, Function.comp_def]
    rw [processBatches, ih _ (fun x hx => hb x (List.mem_cons_of_mem _ hx)),
      e _ (fun c => addIndices c ++ List.range' _ _), ProcessLines_calls _ _ hb1,
      ProcessLines_logFile _ _ hb1]
    simp only [List.map_map, Function.comp_def, addIndices_append, addIndices_addCalls,
      List.flatten_cons, List.length_append, List.length_map, LogFile.Count]
    apply List.map_congr_left
    intro v _
    have h0 : addIndices [ViewCall.BeginUpdate] = [] := rfl
    have h1 : addIndices [ViewCall.EndUpdate] = [] := rfl
    rw [h0, h1, List.append_nil, List.append_nil, List.append_assoc]
    congr 1
    rw [Nat.add_comm b.length, ← List.range'_append_1]

theorem processBatches_logFile (s : CMainFrame) (batches : List Lines) (done : Lines)
    (hb : ∀ b ∈ batches, SentinelFree b)
    (hdone : s.m_logFile = done.map (Line.toMessage s.m_timeOffset))
    (hoff : ∀ first, done.head? = some first → s.m_timeOffset = first.time) :
    (processBatches s batches).m_logFile
        = (done ++ batches.flatten).map (Line.toMessage (processBatches s batches).m_timeOffset) ∧
      (∀ first, (done ++ batches.flatten).head? = some first →
        (processBatches s batches).m_timeOffset = first.time) := by
  induction batches generalizing s done with
  | nil => simpa [processBatches] using ⟨hdone, hoff⟩
  | cons b bs ih =>
    have hb1 := hb b (List.mem_cons_self _ _)
    have hlog := ProcessLines_logFile s b hb1
    have hto := ProcessLines_timeOffset s b
    rw [processBatches]
    have key : (ProcessLines s b).m_logFile
          = (done ++ b).map (Line.toMessage (ProcessLines s b).m_timeOffset) ∧
        (∀ first, (done ++ b).head? = some first →
          (ProcessLines s b).m_timeOffset = first.time) := by
      cases b with
      | nil =>
        simp only at hto
        rw [hlog, hto]
        simpa using ⟨hdone, hoff⟩
      | cons first rest =>
        simp only at hto
        cases done with
        | nil =>
          have hempty : s.m_logFile.Empty = true := by simp [hdone, LogFile.Empty]
          rw [hempty, if_pos rfl] at hto
          rw [hlog, hto, hdone]
          simp
        | cons d ds =>
          have hne : s.m_logFile.Empty = false := by simp [hdone, LogFile.Empty]
          rw [hne] at hto
          simp only [Bool.false_eq_true, if_false] at hto
          rw [hlog, hto, hdone]
          refine ⟨by simp, ?_⟩
          intro f hf
          exact hoff f (by simpa using hf)
    have := ih (ProcessLines s b) (done ++ b) (fun x hx => hb x (List.mem_cons_of_mem _ hx))
      key.1 key.2
    simpa [List.append_assoc] using this

theorem ProcessLines_after_sentinel (t : CMainFrame) (before after : Lines) (x : Line)
    (hx : "DBGVIEWCLEAR".toList <:+: x.message.toList) (ha : SentinelFree after) :
    (ProcessLines t (before ++ x :: after)).m_logFile
      = after.map (Line.toMessage (ProcessLines t (before ++ x :: after)).m_timeOffset) := by
  have hx2 := (IsDbgViewClearMessage_iff x.message).mpr hx
  generalize ho : (ProcessLines t (before ++ x :: after)).m_timeOffset = off
  unfold ProcessLines at ho ⊢
  simp only [callViews_logFile, callViews_timeOffset, addLines_timeOffset] at ho ⊢
  rw [addLines_append, addLines, AddMessage_of_sentinel _ _ hx2, addLines_logFile _ _ ha]
  simp only [OnLogClear_logFile, OnLogClear_timeOffset, addLines_timeOffset, callViews_timeOffset,
    List.nil_append, ho]

/-- C3: for a message without the sentinel, `AddMessage` stores it at index
`c = Count()` and then calls `Add(c, message)` exactly once on every registered
view, in registration order, with that index and that message; in a
sentinel-free batch all of this happens for one message before the next one is
stored, and over a sentinel-free run of `ProcessLines` calls every view
receives the indices `c, c + 1, c + 2, ...` with no gap and no repeat. -/
theorem AddMessage_fanout (s : CMainFrame) (message : Message) (lines : Lines)
    (batches : List Lines)
    (hm : ¬ "DBGVIEWCLEAR".toList <:+: message.text.toList)
    (hl : SentinelFree lines) (hb : ∀ b ∈ batches, SentinelFree b) :
    (AddMessage s message).m_logFile = s.m_logFile ++ [message] ∧
      (AddMessage s message).m_logFile.Get s.m_logFile.Count = some message ∧
      (AddMessage s message).events
        = s.events ++ Event.logAdd message ::
            s.m_views.map (fun v => Event.view v.handle (ViewCall.Add s.m_logFile.Count message)) ∧
      (AddMessage s message).m_views.map CLogView.calls
        = s.m_views.map (fun v => v.calls ++ [ViewCall.Add s.m_logFile.Count message]) ∧
      (AddMessage s message).m_views.map CLogView.handle = s.m_views.map CLogView.handle ∧
      (ProcessLines s lines).events
        = s.events ++ s.m_views.map (fun v => Event.view v.handle ViewCall.BeginUpdate)
            ++ fanoutEvents (s.m_views.map CLogView.handle) s.m_logFile.Count
                (lines.map (Line.toMessage (ProcessLines s lines).m_timeOffset))
            ++ s.m_views.map (fun v => Event.view v.handle ViewCall.EndUpdate) ∧
      (processBatches s batches).m_views.map (fun v => addIndices v.calls)
        = s.m_views.map (fun v => addIndices v.calls
            ++ List.range' s.m_logFile.Count batches.flatten.length) := by
  have h := (IsDbgViewClearMessage_false_iff message.text).mpr hm
  refine ⟨AddMessage_logFile s message h, ?_, AddMessage_events s message h, ?_,
    AddMessage_handles s message, ProcessLines_events s lines hl,
    processBatches_addIndices s batches hb⟩
  · rw [AddMessage_logFile s message h]
    simp [LogFile.Get, LogFile.Count]
  · rw [AddMessage_views s message h, map_calls_call]

/-- Witness of C3: two views, the message `a`, one batch of two lines. -/
theorem AddMessage_fanout_witness :
    ¬ "DBGVIEWCLEAR".toList <:+: "a".toList ∧
      (AddMessage (AddFilterView (OnCreate (CMainFrame.create true 0) 1) 2 (fun _ => true))
        ⟨0, 0, 0, "a"⟩).m_logFile = [⟨0, 0, 0, "a"⟩] ∧
      (processBatches (AddFilterView (OnCreate (CMainFrame.create true 0) 1) 2 (fun _ => true))
        [[⟨5, 0, 0, "b"⟩, ⟨6, 0, 0, "c"⟩]]).m_views.map (fun v => addIndices v.calls)
        = [[0, 1], [0, 1]] :=
  have hm : ¬ "DBGVIEWCLEAR".toList <:+: "a".toList := by decide
  have hl : SentinelFree [⟨5, 0, 0, "b"⟩, ⟨6, 0, 0, "c"⟩] := by
    intro l hmem
    simp only [List.mem_cons, List.mem_singleton, List.not_mem_nil, or_false] at hmem
    rcases hmem with rfl | rfl <;> decide
  have h := AddMessage_fanout
    (AddFilterView (OnCreate (CMainFrame.create true 0) 1) 2 (fun _ => true))
    ⟨0, 0, 0, "a"⟩ [⟨5, 0, 0, "b"⟩, ⟨6, 0, 0, "c"⟩] [[⟨5, 0, 0, "b"⟩, ⟨6, 0, 0, "c"⟩]] hm hl
    (by
      intro b hbm
      rw [List.mem_singleton.mp hbm]
      exact hl)
  ⟨hm, h.1, h.2.2.2.2.2.2⟩

/-- C4: starting from an empty log, after any sequence of sentinel-free
batches `Count()` is the total number of lines, the log is the concatenation
of the batches with every line turned into a message (same process id,
wall-clock time and text, time reduced by the offset of the session), so that
line `j` of a batch sits at the index `j` plus the sizes of all earlier
batches; and after a batch that contains a sentinel, `Count()` is the number
of lines after the last sentinel. -/
theorem processBatches_canonical_log (s : CMainFrame) (batches : List Lines)
    (hs : s.m_logFile = []) (hb : ∀ b ∈ batches, SentinelFree b) :
    (processBatches s batches).m_logFile.Count = batches.flatten.length ∧
      (processBatches s batches).m_logFile
        = batches.flatten.map (Line.toMessage (processBatches s batches).m_timeOffset) ∧
      (∀ i, ((processBatches s batches).m_logFile.Get i).map
              (fun m => (m.pid, m.systemTime, m.text))
          = (batches.flatten[i]?).map (fun l => (l.pid, l.systemTime, l.message))) ∧
      (∀ (earlier : List Lines) (b : Lines) (later : List Lines) (j : Nat) (l : Line),
        batches = earlier ++ b :: later → b[j]? = some l →
        (processBatches s batches).m_logFile.Get (earlier.flatten.length + j)
          = some (l.toMessage (processBatches s batches).m_timeOffset)) ∧
      (∀ (t : CMainFrame) (before after : Lines) (x : Line),
        "DBGVIEWCLEAR".toList <:+: x.message.toList → SentinelFree after →
        (ProcessLines t (before ++ x :: after)).m_logFile.Count = after.length) := by
  have hlog := (processBatches_logFile s batches [] hb (by simp [hs])
    (by intro f hf; simp at hf)).1
  rw [List.nil_append] at hlog
  refine ⟨?_, hlog, ?_, ?_, ?_⟩
  · rw [processBatches_count s batches hb, hs]
    simp [LogFile.Count]
  · intro i
    rw [LogFile.Get, hlog, List.getElem?_map]
    cases batches.flatten[i]? <;> rfl
  · intro earlier b later j l hbat hj
    rw [LogFile.Get, hlog, List.getElem?_map]
    have : batches.flatten[earlier.flatten.length + j]? = some l := by
      rw [hbat, List.flatten_append, List.flatten_cons,
        List.getElem?_append_right (Nat.le_add_right _ _), Nat.add_sub_cancel_left]
      have hjl : j < b.length := (List.getElem?_eq_some_iff.mp hj).1
      rw [List.getElem?_append_left hjl]
      exact hj
    rw [this]
    rfl
  · intro t before after x hx ha
    rw [ProcessLines_after_sentinel t before after x hx ha]
    simp [LogFile.Count]

/-- Witness of C4: a fresh session and the batches `[(5, a)]`, `[(7, b)]`. -/
theorem processBatches_canonical_log_witness :
    (OnCreate (CMainFrame.create true 0) 1).m_logFile = [] ∧
      (processBatches (OnCreate (CMainFrame.create true 0) 1)
        [[⟨5, 1, 2, "a"⟩], [⟨7, 3, 4, "b"⟩]]).m_logFile.Count = 2 :=
  have hb : ∀ b ∈ ([[⟨5, 1, 2, "a"⟩], [⟨7, 3, 4, "b"⟩]] : List Lines), SentinelFree b := by
    intro b hbm
    simp only [List.mem_cons, List.mem_singleton, List.not_mem_nil, or_false] at hbm
    rcases hbm with rfl | rfl <;>
      · intro l hmem
        rw [List.mem_singleton.mp hmem]
        decide
  ⟨rfl, (processBatches_canonical_log (OnCreate (CMainFrame.create true 0) 1)
    [[⟨5, 1, 2, "a"⟩], [⟨7, 3, 4, "b"⟩]] rfl hb).1⟩

/-- C5 fails on the code: the time offset is only recomputed at the start of
`ProcessLines`, so a sentinel inside a batch clears the log without resetting
it.  After the batch `(5, x), (7, DBGVIEWCLEAR), (9, y)` in a fresh session the
only entry is `y` with time `9 - 5 = 4`, not `0`; after
`(1, DBGVIEWCLEAR), (3, y)` it is `y` with time `2`.  With `OnLogClear` between
two batches the offset is recomputed and the first entry has time `0`. -/
theorem ProcessLines_sentinel_keeps_offset :
    (ProcessLines (OnCreate (CMainFrame.create true 0) 1)
        [⟨5, 0, 0, "x"⟩, ⟨7, 0, 0, "DBGVIEWCLEAR"⟩, ⟨9, 0, 0, "y"⟩]).m_logFile
        = [⟨4, 0, 0, "y"⟩] ∧
      (ProcessLines (OnCreate (CMainFrame.create true 0) 1)
        [⟨1, 0, 0, "DBGVIEWCLEAR"⟩, ⟨3, 0, 0, "y"⟩]).m_logFile = [⟨2, 0, 0, "y"⟩] ∧
      (ProcessLines (OnLogClear (ProcessLines (OnCreate (CMainFrame.create true 0) 1)
        [⟨5, 0, 0, "x"⟩])) [⟨9, 0, 0, "y"⟩]).m_logFile = [⟨0, 0, 0, "y"⟩] := by
  decide!

/-! ## `OnCloseTab` -/

theorem toInt32_of_lt (n : Nat) (h : n < 2 ^ 31) : toInt32 n = n := by
  unfold toInt32
  have h2 : n % 2 ^ 32 = n := Nat.mod_eq_of_lt (by omega)
  rw [h2, if_pos h]

theorem OnCloseTab_of_range (s : CMainFrame) (i : Int) (hsz : s.m_views.length < 2 ^ 31)
    (hi : 0 < i ∧ i < s.m_views.length) :
    (OnCloseTab s i).m_views = s.m_views.eraseIdx i.toNat ∧
      (OnCloseTab s i).tabCurSel = (if i = (s.m_views.length : Int) - 1 then i - 1 else i) ∧
      (OnCloseTab s i).m_logFile = s.m_logFile := by
  unfold OnCloseTab
  simp only [toInt32_of_lt _ hsz]
  rw [if_pos (show i > 0 ∧ i < (s.m_views.length : Int) from hi)]
  exact ⟨rfl, rfl, rfl⟩

theorem OnCloseTab_of_not_range (s : CMainFrame) (i : Int) (hsz : s.m_views.length < 2 ^ 31)
    (hi : ¬ (0 < i ∧ i < s.m_views.length)) : OnCloseTab s i = s := by
  unfold OnCloseTab
  simp only [toInt32_of_lt _ hsz]
  rw [if_neg (show ¬ (i > 0 ∧ i < (s.m_views.length : Int)) from hi)]

/-- C6: for a registry of `n ≥ 1` views (with `n` in the range of the `int` it
is cast to), `OnCloseTab(i)` removes exactly the view at position `i` when
`0 < i < n` and changes nothing otherwise; the other views stay, unchanged and
in the same order, the log is unchanged, the view at index 0 stays, the
registry stays non-empty, and the tab index selected afterwards (`i - 1` when
the last view was removed, else `i`) is an index of the new registry. -/
theorem OnCloseTab_frame (s : CMainFrame) (i : Int)
    (hn : 1 ≤ s.m_views.length) (hsz : s.m_views.length < 2 ^ 31) :
    ((0 < i ∧ i < s.m_views.length) →
        (OnCloseTab s i).m_views = s.m_views.eraseIdx i.toNat ∧
        (OnCloseTab s i).m_views.length + 1 = s.m_views.length ∧
        (∀ j, j < i.toNat → (OnCloseTab s i).m_views[j]? = s.m_views[j]?) ∧
        (∀ j, i.toNat ≤ j → (OnCloseTab s i).m_views[j]? = s.m_views[j + 1]?) ∧
        (OnCloseTab s i).tabCurSel = (if i = (s.m_views.length : Int) - 1 then i - 1 else i) ∧
        0 ≤ (OnCloseTab s i).tabCurSel ∧
        (OnCloseTab s i).tabCurSel < (OnCloseTab s i).m_views.length) ∧
      (¬ (0 < i ∧ i < s.m_views.length) → OnCloseTab s i = s) ∧
      (OnCloseTab s i).m_logFile = s.m_logFile ∧
      (OnCloseTab s i).m_views.head? = s.m_views.head? ∧
      (OnCloseTab s i).m_views ≠ [] ∧
      (OnCloseTab s i).m_views.Sublist s.m_views := by
  by_cases hi : 0 < i ∧ i < s.m_views.length
  · obtain ⟨hv, hsel, hlog⟩ := OnCloseTab_of_range s i hsz hi
    have hlt : i.toNat < s.m_views.length := by omega
    have hpos : 0 < i.toNat := by omega
    have hlen : (OnCloseTab s i).m_views.length + 1 = s.m_views.length := by
      rw [hv, List.length_eraseIdx_of_lt hlt]
      omega
    refine ⟨fun _ => ⟨hv, hlen, ?_, ?_, hsel, ?_, ?_⟩, fun h => absurd hi h, hlog, ?_, ?_, ?_⟩
    · intro j hj
      rw [hv, List.getElem?_eraseIdx_of_lt _ _ _ hj]
    · intro j hj
      rw [hv, List.getElem?_eraseIdx_of_ge _ _ _ hj]
    · rw [hsel]
      split <;> omega
    · rw [hsel]
      split <;> omega
    · rw [hv]
      cases hvs : s.m_views with
      | nil => rfl
      | cons v vs =>
        obtain ⟨k, hk⟩ : ∃ k, i.toNat = k + 1 := ⟨i.toNat - 1, by omega⟩
        rw [hk]
        rfl
    · intro hnil
      rw [hnil] at hlen
      simp only [List.length_nil] at hlen
      omega
    · rw [hv]
      exact List.eraseIdx_sublist _ _
  · have hsame := OnCloseTab_of_not_range s i hsz hi
    refine ⟨fun h => absurd h hi, fun _ => hsame, ?_, ?_, ?_, ?_⟩
    · rw [hsame]
    · rw [hsame]
    · rw [hsame]
      intro hnil
      rw [hnil] at hn
      simp at hn
    · rw [hsame]

/-- Witness of C6: three views, the tab at index 2 (the last one) is closed. -/
theorem OnCloseTab_frame_witness :
    1 ≤ (AddFilterView (AddFilterView (OnCreate (CMainFrame.create true 0) 1) 2 (fun _ => true))
        3 (fun _ => true)).m_views.length ∧
      ((OnCloseTab (AddFilterView (AddFilterView (OnCreate (CMainFrame.create true 0) 1) 2
        (fun _ => true)) 3 (fun _ => true)) 2).m_views.map CLogView.handle = [1, 2] ∧
      (OnCloseTab (AddFilterView (AddFilterView (OnCreate (CMainFrame.create true 0) 1) 2
        (fun _ => true)) 3 (fun _ => true)) 2).tabCurSel = 1) ∧
      (OnCloseTab (AddFilterView (AddFilterView (OnCreate (CMainFrame.create true 0) 1) 2
        (fun _ => true)) 3 (fun _ => true)) 2).m_views ≠ [] :=
  ⟨by decide, by decide,
    (OnCloseTab_frame (AddFilterView (AddFilterView (OnCreate (CMainFrame.create true 0) 1) 2
      (fun _ => true)) 3 (fun _ => true)) 2 (by decide) (by decide)).2.2.2.2.1⟩

/-! ## `OnLogPause` -/

/-- C7 fails on the code: on resume `OnLogPause` re-creates the global reader
with `make_unique<DBWinReader>(false)`, the local scope.  After construction
with a global reader, two calls of `OnLogPause` leave both readers active and
both paused flags false, but the global reader now has the local scope. -/
theorem OnLogPause_twice_global_scope :
    (CMainFrame.create true 0).m_pLocalReader = some ⟨false, false⟩ ∧
      (CMainFrame.create true 0).m_pGlobalReader = some ⟨true, false⟩ ∧
      (OnLogPause (CMainFrame.create true 0)).m_pLocalReader = none ∧
      (OnLogPause (CMainFrame.create true 0)).m_pGlobalReader = none ∧
      (OnLogPause (CMainFrame.create true 0)).m_localReaderPaused = true ∧
      (OnLogPause (CMainFrame.create true 0)).m_globalReaderPaused = true ∧
      (OnLogPause (OnLogPause (CMainFrame.create true 0))).m_pLocalReader = some ⟨false, false⟩ ∧
      (OnLogPause (OnLogPause (CMainFrame.create true 0))).m_pGlobalReader = some ⟨false, false⟩ ∧
      (OnLogPause (OnLogPause (CMainFrame.create true 0))).m_localReaderPaused = false ∧
      (OnLogPause (OnLogPause (CMainFrame.create true 0))).m_globalReaderPaused = false ∧
      (OnLogPause (OnLogPause (CMainFrame.create true 0))).m_pGlobalReader
        ≠ (CMainFrame.create true 0).m_pGlobalReader := by
  decide

/-- Without a global reader two calls of `OnLogPause` restore the sources. -/
theorem OnLogPause_twice_without_global (s : CMainFrame) (r : DBWinReader)
    (hl : s.m_pLocalReader = some r) (hscope : r.global = false)
    (hauto : r.autoNewLine = s.m_autoNewLine) (hg : s.m_pGlobalReader = none)
    (hlp : s.m_localReaderPaused = false) (hgp : s.m_globalReaderPaused = false) :
    OnLogPause (OnLogPause s) = s := by
  cases s with
  | mk off auto lr gr lp gp ipb log views sel ev =>
    cases r with
    | mk g a =>
      simp only at hl hscope hauto hg hlp hgp
      subst hl hscope hauto hg hlp hgp
      rfl

/-- What `OnLogPause` leaves alone: the log, the views and the time offset. -/
theorem OnLogPause_frame (s : CMainFrame) :
    (OnLogPause s).m_logFile = s.m_logFile ∧ (OnLogPause s).m_views = s.m_views ∧
      (OnLogPause s).m_timeOffset = s.m_timeOffset ∧ (OnLogPause s).events = s.events := by
  unfold OnLogPause SetAutoNewLine
  simp only
  refine ⟨?_, ?_, ?_, ?_⟩ <;> (repeat' split) <;> rfl

/-! ## `UpdateStatusBar` -/

/-- C10 fails on the code: `memoryUsage` is a `size_t`, so the test
`memoryUsage < 0` never holds and the difference is not clamped.  With a
current count of 1 and an initial count of 2 the value passed to `FormatBytes`
is `2 ^ w - 1` (shown as `15 EB` for a 64-bit `size_t`, `3 GB` for 32 bits),
not 0. -/
theorem UpdateStatusBar_memoryUsage_wraps :
    UpdateStatusBar_memoryUsage 64 1 2 = 2 ^ 64 - 1 ∧
      UpdateStatusBar_memoryUsage 32 1 2 = 2 ^ 32 - 1 ∧
      UpdateStatusBar_memoryUsage 64 1 2 ≠ 0 ∧
      FormatBytes (UpdateStatusBar_memoryUsage 64 1 2) = some "15 EB" ∧
      FormatBytes (UpdateStatusBar_memoryUsage 32 1 2) = some "3 GB" ∧
      UpdateStatusBar_memoryUsage 64 2 1 = 1 := by
  decide!

/-- The value of `memoryUsage` for machine words: the difference when the
current count is at least the initial one, the wrapped difference otherwise. -/
theorem UpdateStatusBar_memoryUsage_eq (w privateBytes initialPrivateBytes : Nat)
    (hp : privateBytes < 2 ^ w) (hi : initialPrivateBytes < 2 ^ w) :
    UpdateStatusBar_memoryUsage w privateBytes initialPrivateBytes =
      if initialPrivateBytes ≤ privateBytes then privateBytes - initialPrivateBytes
      else 2 ^ w - (initialPrivateBytes - privateBytes) := by
  unfold UpdateStatusBar_memoryUsage
  simp only [Nat.not_lt_zero, if_false, Nat.mod_eq_of_lt hi]
  split
  · rename_i h
    have : privateBytes + 2 ^ w - initialPrivateBytes
        = (privateBytes - initialPrivateBytes) + 2 ^ w := by omega
    rw [this, Nat.add_mod_right, Nat.mod_eq_of_lt (by omega)]
  · rename_i h
    have : privateBytes + 2 ^ w - initialPrivateBytes
        = 2 ^ w - (initialPrivateBytes - privateBytes) := by omega
    rw [this, Nat.mod_eq_of_lt (by omega)]

/-! ## `FormatDuration` -/

theorem floor_to_eq (x : ℚ) : floor_to x = ⌊x⌋ := rfl

theorem FormatUnits_of_pos (n : Int) (unit : String) (h : 0 < n) :
    FormatUnits n unit = toString n ++ " " ++ specUnitName unit n := by
  unfold FormatUnits specUnitName streamInt
  have h0 : n ≠ 0 := by omega
  rw [if_neg h0]
  split
  · rfl
  · rw [String.append_assoc]

theorem FormatDuration_minutes (d : ℚ) (h60 : 60 ≤ d) (h3600 : d < 3600) :
    1 ≤ floor_to (d / 60) ∧ floor_to (d / 60) ≤ 59 ∧
      0 ≤ floor_to (d - 60 * floor_to (d / 60)) ∧ floor_to (d - 60 * floor_to (d / 60)) ≤ 59 ∧
      FormatDuration d = some (FormatUnits (floor_to (d / 60)) "minute" ++ " "
        ++ FormatUnits (floor_to (d - 60 * floor_to (d / 60))) "second") := by
  have hm1 : 1 ≤ floor_to (d / 60) := by
    rw [floor_to_eq, Int.le_floor]
    rw [le_div_iff₀ (by norm_num)]
    push_cast
    linarith
  have hm59 : floor_to (d / 60) ≤ 59 := by
    have : floor_to (d / 60) < 60 := by
      rw [floor_to_eq, Int.floor_lt]
      rw [div_lt_iff₀ (by norm_num)]
      push_cast
      linarith
    omega
  have hle : (floor_to (d / 60) : ℚ) ≤ d / 60 := Int.floor_le _
  have hlt : d / 60 < (floor_to (d / 60) : ℚ) + 1 := Int.lt_floor_add_one _
  have hs0 : 0 ≤ floor_to (d - 60 * floor_to (d / 60)) := by
    rw [floor_to_eq, Int.le_floor]
    push_cast
    rw [le_div_iff₀ (by norm_num)] at hle
    linarith
  have hs59 : floor_to (d - 60 * floor_to (d / 60)) ≤ 59 := by
    have : floor_to (d - 60 * floor_to (d / 60)) < 60 := by
      rw [floor_to_eq, Int.floor_lt]
      push_cast
      rw [div_lt_iff₀ (by norm_num)] at hlt
      linarith
    omega
  refine ⟨hm1, hm59, hs0, hs59, ?_⟩
  have hh : Int.tdiv (floor_to (d / 60)) 60 = 0 := Int.tdiv_eq_zero_of_lt (by omega) (by omega)
  unfold FormatDuration
  simp only [hh, Int.zero_tdiv, mul_zero, sub_zero, gt_iff_lt, lt_self_iff_false, if_false]
  rw [if_pos (by omega)]

/-- Counterexample to C8 as stated: for 120 seconds the code prints
`2 minutes ` and no seconds part, while the rendering of the claim for
`m = 2`, `s = 0` is `2 minutes 0 seconds`. -/
theorem FormatDuration_120_not_minute_second :
    FormatDuration 120 = some "2 minutes " ∧
      specMinuteSecond (floor_to (120 / 60)) (floor_to (120 - 60 * floor_to (120 / 60)))
        = "2 minutes 0 seconds" ∧
      FormatDuration 120
        ≠ some (specMinuteSecond (floor_to (120 / 60))
            (floor_to (120 - 60 * floor_to (120 / 60)))) := by
  decide!

/-- C8 as amended: `FormatDuration(0)` is `0.000 s`, a text with no non-zero
digit, and `FormatDuration(90)` is `1 minute 30 seconds`.  For
`60 ≤ d < 3600`, with `m = floor(d / 60)` and `s = floor(d - 60 m)`, the result
is the rendering `<m> minute(s) <s> second(s)` when `s ≥ 1`, and the minute
part followed by one blank, with no seconds part, when `s = 0`; no sub-second
remainder is shown. -/
theorem FormatDuration_minute_second (d : ℚ) (h60 : 60 ≤ d) (h3600 : d < 3600) :
    FormatDuration 0 = some "0.000 s" ∧
      (∀ c ∈ "0.000 s".toList, c.isDigit = true → c = '0') ∧
      FormatDuration 90 = some "1 minute 30 seconds" ∧
      1 ≤ floor_to (d / 60) ∧ floor_to (d / 60) ≤ 59 ∧
      0 ≤ floor_to (d - 60 * floor_to (d / 60)) ∧
      floor_to (d - 60 * floor_to (d / 60)) ≤ 59 ∧
      FormatDuration d
        = some (if floor_to (d - 60 * floor_to (d / 60)) = 0 then
            specMinuteOnly (floor_to (d / 60))
          else
            specMinuteSecond (floor_to (d / 60)) (floor_to (d - 60 * floor_to (d / 60)))) := by
  obtain ⟨hm1, hm59, hs0, hs59, hfmt⟩ := FormatDuration_minutes d h60 h3600
  refine ⟨by decide!, by decide, by decide!, hm1, hm59, hs0, hs59, ?_⟩
  rw [hfmt, FormatUnits_of_pos _ _ (by omega)]
  split
  · rename_i hz
    rw [hz]
    simp [FormatUnits, specMinuteOnly]
  · rename_i hz
    rw [FormatUnits_of_pos _ _ (by omega)]
    simp [specMinuteSecond, String.append_assoc]

/-- Witness of C8 as amended at `d = 90`. -/
theorem FormatDuration_minute_second_witness :
    (60 : ℚ) ≤ 90 ∧ (90 : ℚ) < 3600 ∧ FormatDuration 90 = some "1 minute 30 seconds" :=
  ⟨by norm_num, by norm_num,
    (FormatDuration_minute_second 90 (by norm_num) (by norm_num)).2.2.1⟩

/-- C9 fails on the code: the guard of the scaling loop tests `*unit`, not
`unit[1]`, so a duration below one nanosecond moves `unit` onto the
terminating `nullptr` (position 4 of the table), which the final statement
then streams.  For `1e-10` the loop ends with `seconds = 100` and `unit` on
the terminator; for `1e-13` it ends with `seconds = 0.1`, neither 0 nor at
least 1.  One nanosecond is still printed as `1.000 ns`. -/
theorem FormatDuration_unit_past_table :
    FormatDuration (1 / 10 ^ 10) = none ∧
      FormatDuration_unitIndex (1 / 10 ^ 10) = 4 ∧
      durationUnits[4]? = some none ∧
      (scaleLoop durationUnits (1 / 10 ^ 10)).1 = 100 ∧
      (scaleLoop durationUnits (1 / 10 ^ 13)).1 = 1 / 10 ∧
      FormatDuration_unitIndex (1 / 10 ^ 13) = 4 ∧
      FormatDuration (1 / 10 ^ 9) = some "1.000 ns" := by
  decide!

theorem FormatDuration_sub_minute (d : ℚ) (h0 : 0 ≤ d) (h60 : d < 60) :
    FormatDuration d =
      match scaleLoop durationUnits d with
      | (seconds, some u :: _) => some (streamFixed3 seconds ++ " " ++ u)
      | _ => none := by
  have hm : floor_to (d / 60) = 0 := by
    rw [floor_to_eq, Int.floor_eq_iff]
    constructor
    · push_cast
      exact div_nonneg h0 (by norm_num)
    · push_cast
      rw [div_lt_iff₀ (by norm_num)]
      linarith
  unfold FormatDuration
  simp [hm]

/-- For a duration below one minute the scaling loop of `FormatDuration` ends
on the terminating `nullptr` exactly when the duration is positive and below
one nanosecond; otherwise the unit is an entry of the table and the scaled
number is 0 or at least 1. -/
theorem FormatDuration_sub_minute_unit (d : ℚ) (h0 : 0 ≤ d) (h60 : d < 60) :
    (FormatDuration d = none ↔ 0 < d ∧ d < 1 / 10 ^ 9) ∧
      (FormatDuration_unitIndex d = 4 ↔ 0 < d ∧ d < 1 / 10 ^ 9) ∧
      (¬ (0 < d ∧ d < 1 / 10 ^ 9) →
        (scaleLoop durationUnits d).1 = 0 ∨ 1 ≤ (scaleLoop durationUnits d).1) := by
  rw [FormatDuration_sub_minute d h0 h60]
  unfold FormatDuration_unitIndex durationUnits
  simp only [scaleLoop]
  by_cases h1 : d > 0 ∧ d < 1
  · rw [if_pos h1]
    by_cases h2 : d * 1000 > 0 ∧ d * 1000 < 1
    · rw [if_pos h2]
      by_cases h3 : d * 1000 * 1000 > 0 ∧ d * 1000 * 1000 < 1
      · rw [if_pos h3]
        by_cases h4 : d * 1000 * 1000 * 1000 > 0 ∧ d * 1000 * 1000 * 1000 < 1
        · rw [if_pos h4]
          have hd : 0 < d ∧ d < 1 / 10 ^ 9 := by
            refine ⟨h1.1, ?_⟩
            rw [lt_div_iff₀ (by norm_num)]
            linarith [h4.2]
          exact ⟨iff_of_true rfl hd, iff_of_true rfl hd, fun h => absurd hd h⟩
        · rw [if_neg h4]
          have hd : ¬ (0 < d ∧ d < 1 / 10 ^ 9) := by
            rintro ⟨hp, hq⟩
            rw [lt_div_iff₀ (by norm_num)] at hq
            exact h4 ⟨by linarith, by linarith⟩
          have hge : 1 ≤ d * 1000 * 1000 * 1000 := by
            by_contra hc
            exact h4 ⟨by linarith [h1.1], not_le.mp hc⟩
          exact ⟨iff_of_false (by simp) hd, iff_of_false (by simp) hd, fun _ => Or.inr hge⟩
      · rw [if_neg h3]
        have hge : 1 ≤ d * 1000 * 1000 := by
          by_contra hc
          exact h3 ⟨by linarith [h1.1], not_le.mp hc⟩
        have hd : ¬ (0 < d ∧ d < 1 / 10 ^ 9) := by
          rintro ⟨hp, hq⟩
          rw [lt_div_iff₀ (by norm_num)] at hq
          linarith
        exact ⟨iff_of_false (by simp) hd, iff_of_false (by simp) hd, fun _ => Or.inr hge⟩
    · rw [if_neg h2]
      have hge : 1 ≤ d * 1000 := by
        by_contra hc
        exact h2 ⟨by linarith [h1.1], not_le.mp hc⟩
      have hd : ¬ (0 < d ∧ d < 1 / 10 ^ 9) := by
        rintro ⟨hp, hq⟩
        rw [lt_div_iff₀ (by norm_num)] at hq
        linarith
      exact ⟨iff_of_false (by simp) hd, iff_of_false (by simp) hd, fun _ => Or.inr hge⟩
  · rw [if_neg h1]
    have hd : ¬ (0 < d ∧ d < 1 / 10 ^ 9) := by
      rintro ⟨hp, hq⟩
      rw [lt_div_iff₀ (by norm_num)] at hq
      exact h1 ⟨hp, by linarith⟩
    have hzero : d = 0 ∨ 1 ≤ d := by
      rcases eq_or_lt_of_le h0 with hz | hz
      · exact Or.inl hz.symm
      · right
        by_contra hc
        exact h1 ⟨hz, not_le.mp hc⟩
    exact ⟨iff_of_false (by simp) hd, iff_of_false (by simp) hd, fun _ => hzero⟩

end fusion
